import Mathlib

/-!
Verification of the hamsando domain-name core: the parsing/validation logic of
src/domain.rs and the DST allocation engine of dst/src/lib.rs, embedded shallowly.
Domain strings are modelled as lists of characters; the inputs concerned are ASCII,
so Rust's byte indices and byte lengths coincide with character indices and lengths.
-/

namespace Hamsando

set_option maxRecDepth 40000

/-- Strings of the embedding: lists of characters (ASCII inputs, so Rust byte
indices coincide with character indices). -/
abbrev Str := List Char

/-- Rust constant MAX_DOMAIN_LEN in src/domain.rs. -/
def MAX_DOMAIN_LEN : Nat := 253

/-- Rust constant MAX_LABEL_LEN in src/domain.rs. -/
def MAX_LABEL_LEN : Nat := 63

/-- Rust enum DomainParseError in src/domain.rs, payload strings kept.  The Rust
constructor HasPrefix is rendered HasPfx here. -/
inductive DomainParseError where
  | Empty : DomainParseError
  | EmptyLabel (domain : Str) : DomainParseError
  | HasPfx (domain : Str) (pfx : Str) : DomainParseError
  | MissingRoot (domain : Str) : DomainParseError
  | MissingSuffix (domain : Str) : DomainParseError
  | TooLong (domain : Str) : DomainParseError
  | TooLongLabel (domain : Str) (label : Str) : DomainParseError
  | UnknownSuffix (domain : Str) (sfx : Str) : DomainParseError
deriving DecidableEq

/-- Rust core::alloc::LayoutError, an opaque error value: layout computation can
only fail by size-arithmetic overflow. -/
inductive LayoutError where
  | overflow : LayoutError
deriving DecidableEq

/-- Rust enum DomainCreateError in src/domain.rs. -/
inductive DomainCreateError where
  | Parse (e : DomainParseError) : DomainCreateError
  | Layout (e : LayoutError) : DomainCreateError
deriving DecidableEq

/-- Decidable equality of Except values, so concrete parse runs can be settled by
decide. -/
instance {ε α : Type} [DecidableEq ε] [DecidableEq α] : DecidableEq (Except ε α) :=
  fun a b =>
    match a, b with
    | .error x, .error y =>
      match decEq x y with
      | isTrue h => isTrue (by rw [h])
      | isFalse h => isFalse (by intro hc; cases hc; exact h rfl)
    | .error _, .ok _ => isFalse (by intro hc; cases hc)
    | .ok _, .error _ => isFalse (by intro hc; cases hc)
    | .ok x, .ok y =>
      match decEq x y with
      | isTrue h => isTrue (by rw [h])
      | isFalse h => isFalse (by intro hc; cases hc; exact h rfl)

/-- Rust fn get_not_fqdn in src/domain.rs: drops one trailing dot if present. -/
def getNotFqdn (s : Str) : Str :=
  if s.getLast? = some '.' then s.dropLast else s

/-- Rust str::split on the character dot, as used by parse_domain: "a.b" gives
two pieces, the empty string gives one empty piece, a lone dot gives two empty
pieces. -/
def splitOnDot : Str → List Str
  | [] => [[]]
  | c :: cs =>
    if c = '.' then [] :: splitOnDot cs
    else
      match splitOnDot cs with
      | [] => [[c]]
      | h :: t => (c :: h) :: t

/-- The label loop of Rust parse_domain (src/domain.rs lines 89-100): the first
empty label yields EmptyLabel, the first over-length label yields TooLongLabel,
carrying the full original domain string. -/
def checkLabels (domain : Str) : List Str → Option DomainParseError
  | [] => none
  | l :: ls =>
    if l = [] then some (DomainParseError.EmptyLabel domain)
    else if MAX_LABEL_LEN < l.length then some (DomainParseError.TooLongLabel domain l)
    else checkLabels domain ls

/-- Whether sfx matches s at a label boundary: either the whole string or
preceded by a dot. -/
def isSuffixMatch (s sfx : Str) : Bool :=
  s == sfx || ('.' :: sfx).isSuffixOf s

/-- Keeps the longer of an already-chosen candidate and a new candidate. -/
def pickLonger (acc : Option Str) (sfx : Str) : Option Str :=
  match acc with
  | none => some sfx
  | some best => if best.length < sfx.length then some sfx else some best

/-- The longest entry of the known-suffix table matching s at a label boundary. -/
def longestKnown (known : List Str) (s : Str) : Option Str :=
  (known.filter (fun sfx => isSuffixMatch s sfx)).foldl pickLonger none

/-- Modelled from the spec: the suffix lookup of the external psl crate over a
known-suffix table ("public-suffix lookup against a known-suffix table", spec 4.3
step 5), for input without a trailing dot.  The longest known suffix matching at a
label boundary is returned as known; otherwise the last label is the suffix and is
not known (the public-suffix list's default wildcard rule, which is why the
no-match case is practically unreachable); the empty string has no suffix. -/
def pslSuffixCore (known : List Str) (s : Str) : Option (Str × Bool) :=
  match longestKnown known s with
  | some sfx => some (sfx, true)
  | none => if s = [] then none else some ((splitOnDot s).getLastD [], false)

/-- Modelled from the spec: the suffix lookup of the external psl crate on an
arbitrary input; on a fully-qualified name the returned suffix keeps the trailing
dot, mirroring the psl crate's documented handling of fully-qualified names. -/
def pslSuffix (known : List Str) (s : Str) : Option (Str × Bool) :=
  if s.getLast? = some '.' then
    (pslSuffixCore known s.dropLast).map (fun p => (p.1 ++ ['.'], p.2))
  else pslSuffixCore known s

/-- The last index of a dot in the string, Rust str::rfind of the dot character. -/
def rfindDot (s : Str) : Option Nat :=
  ((List.range s.length).filter (fun i => s.getD i ' ' == '.')).getLast?

/-- Rust fn parse_domain in src/domain.rs lines 76-125: returns the index of the
dot between prefix and root (if any) and the index of the dot before the suffix,
both measured in the dot-trimmed working string. -/
def parse_domain (known : List Str) (domain : Str) :
    Except DomainParseError (Option Nat × Nat) :=
  if getNotFqdn domain = [] then .error DomainParseError.Empty
  else if MAX_DOMAIN_LEN < (getNotFqdn domain).length then
    .error (DomainParseError.TooLong domain)
  else
    match checkLabels domain (splitOnDot (getNotFqdn domain)) with
    | some e => .error e
    | none =>
      match pslSuffix known (getNotFqdn domain) with
      | none => .error (DomainParseError.MissingSuffix domain)
      | some (sfx, isKnown) =>
        if isKnown then
          if (getNotFqdn domain).length = sfx.length then
            .error (DomainParseError.MissingRoot domain)
          else
            .ok (rfindDot ((getNotFqdn domain).take ((getNotFqdn domain).length - sfx.length - 1)),
              (getNotFqdn domain).length - sfx.length - 1)
        else .error (DomainParseError.UnknownSuffix domain sfx)

/-- Rust struct Domain in src/domain.rs: two header index fields plus the tail
string; the tail's length is pointer metadata in Rust and is carried by the list
itself here. -/
structure Domain where
  root_separator_idx : Option Nat
  suffix_separator_idx : Nat
  domain : Str
deriving DecidableEq

/-- Rust struct Root in src/domain.rs: same fields in the same order as Domain. -/
structure Root where
  root_separator_idx : Option Nat
  suffix_separator_idx : Nat
  domain : Str
deriving DecidableEq

/-- Rust isize::MAX on a 64-bit target, the bound of layout size arithmetic. -/
def isizeMax : Nat := 2 ^ 63 - 1

/-- A (size, alignment) pair, Rust core::alloc::Layout. -/
structure Layout where
  size : Nat
  align : Nat
deriving DecidableEq

/-- Rounds n up to the next multiple of a. -/
def roundUp (n a : Nat) : Nat := ((n + a - 1) / a) * a

/-- Modelled from the spec: the derive-generated layout of the Domain/Root shape
(the derive-macro crate is not among the sources).  Spec 4.1's composite rule over
the fields (Option usize, usize, byte tail) on a 64-bit target gives a 16-byte and
an 8-byte header field at alignment 8, then the tail, the total padded to
alignment 8; it fails only when the tail length is nearly isize::MAX
(DomainCreateError documentation in src/domain.rs). -/
def domainLayout (len : Nat) : Except LayoutError Layout :=
  let size := roundUp (24 + len) 8
  if size ≤ isizeMax then .ok (Layout.mk size 8) else .error LayoutError.overflow

/-- Modelled from the spec: the derive-generated Domain::new_unchecked (spec 4.3
step 8): allocates for the given tail string via the composite layout and writes
the two header fields and the string bytes into the tail.  The tail is exactly the
string passed by the caller, and the length of the value is that string's length;
this is pinned by the repository's own tests, where parsing a name with a trailing
dot yields an as_str() that still carries the trailing dot. -/
def Domain.new_unchecked (rsi : Option Nat) (ssi : Nat) (s : Str) :
    Except DomainCreateError Domain :=
  match domainLayout s.length with
  | .error e => .error (DomainCreateError.Layout e)
  | .ok _ => .ok (Domain.mk rsi ssi s)

/-- Modelled from the spec: the derive-generated Root::new_unchecked, identical in
shape to Domain::new_unchecked. -/
def Root.new_unchecked (rsi : Option Nat) (ssi : Nat) (s : Str) :
    Except DomainCreateError Root :=
  match domainLayout s.length with
  | .error e => .error (DomainCreateError.Layout e)
  | .ok _ => .ok (Root.mk rsi ssi s)

/-- Rust Domain::parse in src/domain.rs lines 318-325. -/
def Domain.parse (known : List Str) (input : Str) : Except DomainCreateError Domain :=
  match parse_domain known input with
  | .error e => .error (DomainCreateError.Parse e)
  | .ok (rsi, ssi) => Domain.new_unchecked rsi ssi input

/-- Rust Root::parse in src/domain.rs lines 146-159: rejects a name that carries a
prefix, surfacing the offending prefix text. -/
def Root.parse (known : List Str) (input : Str) : Except DomainCreateError Root :=
  match parse_domain known input with
  | .error e => .error (DomainCreateError.Parse e)
  | .ok (some rsi, _) =>
    .error (DomainCreateError.Parse (DomainParseError.HasPfx input (input.take rsi)))
  | .ok (none, ssi) => Root.new_unchecked none ssi input

/-- Rust Domain::as_str: the whole tail string. -/
def Domain.as_str (d : Domain) : Str := d.domain

/-- Rust Domain::prefix, rendered pfx: the part before root_separator_idx, if any. -/
def Domain.pfx (d : Domain) : Option Str :=
  d.root_separator_idx.map (fun i => d.domain.take i)

/-- Rust Domain::root: reinterprets the Domain's memory as a Root; same header
fields, same tail, same length metadata. -/
def Domain.root (d : Domain) : Root :=
  Root.mk d.root_separator_idx d.suffix_separator_idx d.domain

/-- Rust Domain::suffix: the part after suffix_separator_idx. -/
def Domain.suffix (d : Domain) : Str :=
  d.domain.drop (d.suffix_separator_idx + 1)

/-- Rust Domain::is_fqdn: whether as_str ends with a dot. -/
def Domain.is_fqdn (d : Domain) : Bool :=
  d.as_str.getLast? == some '.'

/-- Rust Domain::not_fqdn: same header fields with the tail length lowered by one
when the name is fully qualified, dropping the trailing dot; no copy in Rust, so
only the length metadata changes. -/
def Domain.not_fqdn (d : Domain) : Domain :=
  if d.is_fqdn then Domain.mk d.root_separator_idx d.suffix_separator_idx d.domain.dropLast
  else d

/-- The derive-generated Dst::len for Domain: the tail string's length. -/
def Domain.len (d : Domain) : Nat := d.domain.length

/-- Rust Root::as_str: the tail from just after root_separator_idx (from the start
when there is none). -/
def Root.as_str (r : Root) : Str :=
  r.domain.drop ((r.root_separator_idx.map (· + 1)).getD 0)

/-- Rust Root::suffix: the part after suffix_separator_idx. -/
def Root.suffix (r : Root) : Str :=
  r.domain.drop (r.suffix_separator_idx + 1)

/-- Rust Root::is_fqdn: whether as_str ends with a dot. -/
def Root.is_fqdn (r : Root) : Bool :=
  r.as_str.getLast? == some '.'

/-- Rust Root::not_fqdn: same header fields with the tail length lowered by one
when the name is fully qualified. -/
def Root.not_fqdn (r : Root) : Root :=
  if r.is_fqdn then Root.mk r.root_separator_idx r.suffix_separator_idx r.domain.dropLast
  else r

/-- The derive-generated Dst::len for Root: the tail string's length. -/
def Root.len (r : Root) : Nat := r.domain.length

/-- A known-suffix table for concrete test inputs, a small cut of the public
suffix list containing every suffix the repository's tests exercise. -/
def knownSuffixes : List Str :=
  [(r"com").toList, (r"net").toList, (r"org").toList, (r"uk").toList, (r"co.uk").toList]

/-- Rust enum TryAllocDstError in dst/src: a layout failure or a propagated
initializer error. -/
inductive TryAllocDstError (E : Type) where
  | Layout (e : LayoutError) : TryAllocDstError E
  | Init (e : E) : TryAllocDstError E
deriving DecidableEq

/-- Calls the engine makes on the process heap allocator, recorded as a trace so
that leak freedom is expressible: every alloc must be matched by a dealloc unless
the allocation is handed to the returned owning value. -/
inductive AllocEvent where
  | alloc (lay : Layout) : AllocEvent
  | dealloc (lay : Layout) : AllocEvent
deriving DecidableEq

/-- The value built by the allocation engine: the length that retype attached as
pointer metadata, together with the content the initializer wrote. -/
structure BuiltDst (V : Type) where
  len : Nat
  val : V
deriving DecidableEq

/-- Rust Layout::array for an element of the given size and alignment, the layout
used by the Dst implementations for str (element size 1) and for slices; it fails
when the total size overflows isize. -/
def arrayLayout (elemSize align : Nat) (len : Nat) : Except LayoutError Layout :=
  if elemSize * len ≤ isizeMax then .ok (Layout.mk (elemSize * len) align)
  else .error LayoutError.overflow

/-- The str shape's layout, Layout::array over bytes (dst/src/lib.rs lines 88-90). -/
def strLayout : Nat → Except LayoutError Layout := arrayLayout 1 1

/-- Rust try_new_dst for Box (dst/src/lib.rs lines 157-185), the shape abstracted
to its layout function and the initializer modelled as a function of the length
metadata the retyped pointer carries.  Layout failure returns before anything is
allocated; a zero-size layout synthesizes a dangling pointer and never touches the
allocator; otherwise the allocator is called, and an initializer error deallocates
(exactly when the allocator was called) before the error is propagated. -/
def tryNewDst {E V : Type} (layoutFn : Nat → Except LayoutError Layout) (len : Nat)
    (init : Nat → Except E V) :
    Except (TryAllocDstError E) (BuiltDst V) × List AllocEvent :=
  match layoutFn len with
  | .error e => (.error (TryAllocDstError.Layout e), [])
  | .ok lay =>
    if lay.size = 0 then
      match init len with
      | .error e => (.error (TryAllocDstError.Init e), [])
      | .ok v => (.ok (BuiltDst.mk len v), [])
    else
      match init len with
      | .error e => (.error (TryAllocDstError.Init e), [AllocEvent.alloc lay, AllocEvent.dealloc lay])
      | .ok v => (.ok (BuiltDst.mk len v), [AllocEvent.alloc lay])

/-- The number of allocator calls recorded in a trace. -/
def allocCount : List AllocEvent → Nat
  | [] => 0
  | AllocEvent.alloc _ :: t => allocCount t + 1
  | AllocEvent.dealloc _ :: t => allocCount t

/-- The number of deallocator calls recorded in a trace. -/
def deallocCount : List AllocEvent → Nat
  | [] => 0
  | AllocEvent.alloc _ :: t => deallocCount t
  | AllocEvent.dealloc _ :: t => deallocCount t + 1

/-- An error type for exercising the fallible engine path in witnesses. -/
inductive InitFailure where
  | boom : InitFailure
deriving DecidableEq

/-- Splitting on dots never yields an empty list of pieces. -/
theorem splitOnDot_ne_nil (l : Str) : splitOnDot l ≠ [] := by
  cases l with
  | nil => simp [splitOnDot]
  | cons c cs =>
    unfold splitOnDot
    split
    · simp
    · split <;> simp

/-- Appending a trailing dot appends an empty trailing piece. -/
theorem splitOnDot_concat_dot (l : Str) :
    splitOnDot (l ++ ['.']) = splitOnDot l ++ [[]] := by
  induction l with
  | nil => rfl
  | cons c cs ih =>
    obtain ⟨h, t, hht⟩ : ∃ h t, splitOnDot cs = h :: t := by
      cases hs : splitOnDot cs with
      | nil => exact absurd hs (splitOnDot_ne_nil cs)
      | cons a b => exact ⟨a, b, rfl⟩
    by_cases hc : c = '.'
    · subst hc; simp [splitOnDot, ih]
    · simp [splitOnDot, hc, ih, hht]

/-- A string ending in a dot splits into pieces containing an empty piece. -/
theorem nil_mem_splitOnDot {w : Str} (h : w.getLast? = some '.') :
    [] ∈ splitOnDot w := by
  have hne : w ≠ [] := by
    intro he
    rw [he] at h
    simp at h
  have hlast : w.getLast hne = '.' := by
    have := List.getLast?_eq_getLast w hne
    rw [this] at h
    exact Option.some.inj h
  have hw : w = w.dropLast ++ ['.'] := by
    conv_lhs => rw [← List.dropLast_append_getLast hne]
    rw [hlast]
  rw [hw, splitOnDot_concat_dot]
  simp

/-- The label check fails whenever some label is empty. -/
theorem checkLabels_ne_none_of_nil_mem {d : Str} {ls : List Str} (h : [] ∈ ls) :
    checkLabels d ls ≠ none := by
  induction ls with
  | nil => simp at h
  | cons l t ih =>
    unfold checkLabels
    by_cases hl : l = []
    · simp [hl]
    · rw [if_neg hl]
      split
      · simp
      · apply ih
        rcases List.mem_cons.mp h with h1 | h2
        · exact absurd h1.symm hl
        · exact h2

/-- A working string accepted by the label check cannot end in a dot. -/
theorem checkLabels_none_no_dot {d w : Str}
    (h : checkLabels d (splitOnDot w) = none) : w.getLast? ≠ some '.' := by
  intro hd
  exact checkLabels_ne_none_of_nil_mem (nil_mem_splitOnDot hd) h

/-- The label check passes when every label is non-empty and within bounds. -/
theorem checkLabels_eq_none {d : Str} {ls : List Str}
    (h : ∀ l ∈ ls, l ≠ [] ∧ l.length ≤ MAX_LABEL_LEN) : checkLabels d ls = none := by
  induction ls with
  | nil => rfl
  | cons l t ih =>
    obtain ⟨h1, h2⟩ := h l (List.mem_cons_self l t)
    unfold checkLabels
    rw [if_neg h1, if_neg (Nat.not_lt.mpr h2)]
    exact ih (fun x hx => h x (List.mem_cons_of_mem l hx))

/-- When the labels are all non-empty and some label is over-length, the label
check reports TooLongLabel for one of the over-length labels. -/
theorem checkLabels_toolong {d : Str} {ls : List Str}
    (hne : ∀ l ∈ ls, l ≠ []) (hex : ∃ l ∈ ls, MAX_LABEL_LEN < l.length) :
    ∃ l ∈ ls, MAX_LABEL_LEN < l.length ∧
      checkLabels d ls = some (DomainParseError.TooLongLabel d l) := by
  induction ls with
  | nil => simp at hex
  | cons l t ih =>
    by_cases hl : MAX_LABEL_LEN < l.length
    · refine ⟨l, List.mem_cons_self l t, hl, ?_⟩
      unfold checkLabels
      rw [if_neg (hne l (List.mem_cons_self l t)), if_pos hl]
    · obtain ⟨x, hx, hxl⟩ := hex
      rcases List.mem_cons.mp hx with h1 | h2
      · rw [h1] at hxl
        exact absurd hxl hl
      · obtain ⟨y, hy, hyl, hck⟩ :=
          ih (fun z hz => hne z (List.mem_cons_of_mem l hz)) ⟨x, h2, hxl⟩
        refine ⟨y, List.mem_cons_of_mem l hy, hyl, ?_⟩
        unfold checkLabels
        rw [if_neg (hne l (List.mem_cons_self l t)), if_neg hl]
        exact hck

/-- A fold of pickLonger lands on a list element or is the starting accumulator. -/
theorem foldl_pickLonger_mem :
    ∀ (l : List Str) (acc : Option Str) (res : Str),
      l.foldl pickLonger acc = some res → res ∈ l ∨ acc = some res := by
  intro l
  induction l with
  | nil =>
    intro acc res h
    right
    exact h
  | cons a t ih =>
    intro acc res h
    rcases ih (pickLonger acc a) res h with h1 | h2
    · left
      exact List.mem_cons_of_mem a h1
    · cases acc with
      | none =>
        simp only [pickLonger] at h2
        left
        injection h2 with he
        rw [← he]
        exact List.mem_cons_self a t
      | some best =>
        simp only [pickLonger] at h2
        by_cases hbl : best.length < a.length
        · rw [if_pos hbl] at h2
          left
          injection h2 with he
          rw [← he]
          exact List.mem_cons_self a t
        · rw [if_neg hbl] at h2
          right
          exact h2

/-- The longest known match is a table entry matching at a label boundary. -/
theorem longestKnown_spec {known : List Str} {s sfx : Str}
    (h : longestKnown known s = some sfx) :
    sfx ∈ known ∧ isSuffixMatch s sfx = true := by
  unfold longestKnown at h
  rcases foldl_pickLonger_mem _ _ _ h with h1 | h2
  · exact ⟨(List.mem_filter.mp h1).1, (List.mem_filter.mp h1).2⟩
  · simp at h2

/-- A label-boundary match is the whole string or is preceded by a dot. -/
theorem isSuffixMatch_decomp {s sfx : Str} (h : isSuffixMatch s sfx = true) :
    s = sfx ∨ ∃ pre, s = pre ++ '.' :: sfx := by
  unfold isSuffixMatch at h
  rcases Bool.or_eq_true_iff.mp h with h1 | h2
  · left
    exact beq_iff_eq.mp h1
  · right
    obtain ⟨pre, hp⟩ := List.isSuffixOf_iff_suffix.mp h2
    exact ⟨pre, hp.symm⟩

/-- A known suffix reported by the core lookup is the longest known match. -/
theorem pslSuffixCore_known {known : List Str} {s sfx : Str}
    (h : pslSuffixCore known s = some (sfx, true)) :
    longestKnown known s = some sfx := by
  unfold pslSuffixCore at h
  split at h
  · rename_i s' hs'
    injection h with h1
    rw [hs']
    rw [(Prod.mk.injEq _ _ _ _).mp h1 |>.1]
  · split at h
    · cases h
    · injection h with h1
      exact absurd ((Prod.mk.injEq _ _ _ _).mp h1).2 (by simp)

/-- On a string without a trailing dot the lookup is the core lookup. -/
theorem pslSuffix_eq_core {known : List Str} {s : Str} (h : s.getLast? ≠ some '.') :
    pslSuffix known s = pslSuffixCore known s := by
  unfold pslSuffix
  rw [if_neg h]

/-- Inversion of parse_domain: a successful parse passed every validation step,
the lookup found a known suffix shorter than the working string, and the returned
indices are the dot before that suffix and the last dot before it. -/
theorem parse_domain_ok {known : List Str} {s : Str} {rsi : Option Nat} {ssi : Nat}
    (h : parse_domain known s = .ok (rsi, ssi)) :
    getNotFqdn s ≠ [] ∧ (getNotFqdn s).length ≤ MAX_DOMAIN_LEN ∧
    checkLabels s (splitOnDot (getNotFqdn s)) = none ∧
    ∃ sfx, pslSuffix known (getNotFqdn s) = some (sfx, true) ∧
      (getNotFqdn s).length ≠ sfx.length ∧
      ssi = (getNotFqdn s).length - sfx.length - 1 ∧
      rsi = rfindDot ((getNotFqdn s).take ssi) := by
  unfold parse_domain at h
  by_cases h1 : getNotFqdn s = []
  · rw [if_pos h1] at h
    cases h
  rw [if_neg h1] at h
  by_cases h2 : MAX_DOMAIN_LEN < (getNotFqdn s).length
  · rw [if_pos h2] at h
    cases h
  rw [if_neg h2] at h
  cases h3 : checkLabels s (splitOnDot (getNotFqdn s)) with
  | some e =>
    rw [h3] at h
    cases h
  | none =>
    rw [h3] at h
    cases h4 : pslSuffix known (getNotFqdn s) with
    | none =>
      rw [h4] at h
      cases h
    | some p =>
      obtain ⟨sfx, isKnown⟩ := p
      rw [h4] at h
      cases isKnown with
      | false =>
        simp only [Bool.false_eq_true, if_false] at h
        cases h
      | true =>
        simp only [if_true] at h
        by_cases h5 : (getNotFqdn s).length = sfx.length
        · rw [if_pos h5] at h
          cases h
        rw [if_neg h5] at h
        injection h with hp
        injection hp with he1 he2
        refine ⟨h1, Nat.not_lt.mp h2, rfl, sfx, rfl, h5, he2.symm, ?_⟩
        rw [← he2]
        exact he1.symm

/-- Forward direction: under the validation and lookup hypotheses, parse_domain
succeeds with the suffix-separator index and the last dot before it. -/
theorem parse_domain_eq_ok {known : List Str} {s sfx : Str}
    (h1 : getNotFqdn s ≠ []) (h2 : (getNotFqdn s).length ≤ MAX_DOMAIN_LEN)
    (h3 : checkLabels s (splitOnDot (getNotFqdn s)) = none)
    (h4 : pslSuffix known (getNotFqdn s) = some (sfx, true))
    (h5 : (getNotFqdn s).length ≠ sfx.length) :
    parse_domain known s =
      .ok (rfindDot ((getNotFqdn s).take ((getNotFqdn s).length - sfx.length - 1)),
        (getNotFqdn s).length - sfx.length - 1) := by
  unfold parse_domain
  rw [if_neg h1, if_neg (Nat.not_lt.mpr h2)]
  simp [h3, h4, h5]

/-- The input is at most one character longer than its working string. -/
theorem length_le_getNotFqdn_add_one (s : Str) :
    s.length ≤ (getNotFqdn s).length + 1 := by
  unfold getNotFqdn
  split
  · rename_i hl
    have hne : s ≠ [] := by
      intro he
      rw [he] at hl
      simp at hl
    rw [List.length_dropLast]
    have := List.length_pos.mpr hne
    omega
  · omega

/-- The composite layout succeeds for every in-range length. -/
theorem domainLayout_ok {len : Nat} (h : len ≤ 300) :
    ∃ lay, domainLayout len = .ok lay := by
  unfold domainLayout
  rw [if_pos]
  · exact ⟨_, rfl⟩
  · have h1 : roundUp (24 + len) 8 ≤ 24 + len + 7 := by
      unfold roundUp
      have := Nat.div_mul_le_self (24 + len + 8 - 1) 8
      omega
    have h2 : (331 : Nat) ≤ isizeMax := by decide
    omega

/-- Inversion of Domain::parse: success stores the two indices produced by
parse_domain and the unmodified input string as the tail. -/
theorem domain_parse_ok {known : List Str} {s : Str} {d : Domain}
    (h : Domain.parse known s = .ok d) :
    parse_domain known s = .ok (d.root_separator_idx, d.suffix_separator_idx) ∧
    d.domain = s := by
  unfold Domain.parse at h
  cases hp : parse_domain known s with
  | error e =>
    rw [hp] at h
    cases h
  | ok p =>
    obtain ⟨rsi, ssi⟩ := p
    rw [hp] at h
    have h' : Domain.new_unchecked rsi ssi s = .ok d := h
    unfold Domain.new_unchecked at h'
    cases hl : domainLayout s.length with
    | error e =>
      rw [hl] at h'
      cases h'
    | ok lay =>
      rw [hl] at h'
      injection h' with hd
      rw [← hd]
      exact ⟨rfl, rfl⟩

/-- Inversion of Root::parse: success means parse_domain found no prefix, and the
unmodified input string is the tail. -/
theorem root_parse_ok {known : List Str} {s : Str} {r : Root}
    (h : Root.parse known s = .ok r) :
    parse_domain known s = .ok (none, r.suffix_separator_idx) ∧
    r.root_separator_idx = none ∧ r.domain = s := by
  unfold Root.parse at h
  cases hp : parse_domain known s with
  | error e =>
    rw [hp] at h
    cases h
  | ok p =>
    obtain ⟨rsi, ssi⟩ := p
    rw [hp] at h
    cases rsi with
    | some k => exact Except.noConfusion h
    | none =>
      have h' : Root.new_unchecked none ssi s = .ok r := h
      unfold Root.new_unchecked at h'
      cases hl : domainLayout s.length with
      | error e =>
        rw [hl] at h'
        cases h'
      | ok lay =>
        rw [hl] at h'
        injection h' with hr
        rw [← hr]
        exact ⟨rfl, rfl, rfl⟩

/-- A successful parse decomposes the working string into a part before the dot,
the dot, and the known suffix found by the core lookup, the suffix-separator index
pointing at that dot. -/
theorem parse_domain_suffix_decomp {known : List Str} {s : Str} {rsi : Option Nat}
    {ssi : Nat} (h : parse_domain known s = .ok (rsi, ssi)) :
    ∃ sfx pre, pslSuffixCore known (getNotFqdn s) = some (sfx, true) ∧
      getNotFqdn s = pre ++ '.' :: sfx ∧ ssi = pre.length := by
  obtain ⟨h1, h2, h3, sfx, h4, h5, h6, h7⟩ := parse_domain_ok h
  have hnd : (getNotFqdn s).getLast? ≠ some '.' := checkLabels_none_no_dot h3
  rw [pslSuffix_eq_core hnd] at h4
  obtain ⟨hmem, hmatch⟩ := longestKnown_spec (pslSuffixCore_known h4)
  rcases isSuffixMatch_decomp hmatch with he | ⟨pre, hpre⟩
  · exact absurd (congrArg List.length he) h5
  · refine ⟨sfx, pre, h4, hpre, ?_⟩
    rw [h6, hpre]
    simp only [List.length_append, List.length_cons]
    omega

/-- Dropping everything up to and including the separating dot leaves the suffix. -/
theorem drop_pre_dot (pre sfx : Str) :
    (pre ++ '.' :: sfx).drop (pre.length + 1) = sfx := by
  have he : pre ++ '.' :: sfx = (pre ++ ['.']) ++ sfx := by simp
  rw [he]
  have hl : (pre ++ ['.']).length = pre.length + 1 := by simp
  rw [← hl, List.drop_left]

/-- The character at the suffix-separator index is the dot. -/
theorem getD_pre_dot (pre sfx : Str) :
    (pre ++ '.' :: sfx).getD pre.length ' ' = '.' := by
  simp [List.getD, List.getElem?_append_right (Nat.le_refl pre.length)]

/-- A fully-qualified string is its working string plus the trailing dot. -/
theorem fqdn_decomp {s : Str} (h : s.getLast? = some '.') :
    s = getNotFqdn s ++ ['.'] := by
  have hne : s ≠ [] := by
    intro he
    rw [he] at h
    simp at h
  have hlast : s.getLast hne = '.' := by
    have hq := List.getLast?_eq_getLast s hne
    rw [hq] at h
    exact Option.some.inj h
  unfold getNotFqdn
  rw [if_pos h]
  conv_lhs => rw [← List.dropLast_append_getLast hne]
  rw [hlast]

/-- C2 counterexample: parsing the fully-qualified "example.com." allocates a
value whose length is 12, the unmodified input's length, while the working string
(trailing dot removed) has length 11, the length the claim predicts. -/
theorem c2_counterexample :
    (Domain.parse knownSuffixes ((r"example.com.").toList)).map Domain.len = .ok 12 ∧
    (getNotFqdn ((r"example.com.").toList)).length = 11 ∧ (12 : Nat) ≠ 11 := by
  decide

/-- C2 amended: for every input accepted by Domain::parse or Root::parse, len()
of the allocated value equals the byte length of the unmodified input. -/
theorem c2_len_eq_input_length (known : List Str) (s : Str) (d : Domain) (rt : Root) :
    (Domain.parse known s = .ok d → d.len = s.length) ∧
    (Root.parse known s = .ok rt → rt.len = s.length) := by
  constructor
  · intro h
    have hd := (domain_parse_ok h).2
    unfold Domain.len
    rw [hd]
  · intro h
    have hr := (root_parse_ok h).2.2
    unfold Root.len
    rw [hr]

/-- C2 witness: the amended statement evaluated on the parse of "example.com.". -/
theorem c2_witness :
    Domain.len (Domain.mk none 7 ((r"example.com.").toList)) =
      ((r"example.com.").toList).length ∧
    Root.len (Root.mk none 7 ((r"example.com.").toList)) =
      ((r"example.com.").toList).length :=
  ⟨(c2_len_eq_input_length knownSuffixes ((r"example.com.").toList)
      (Domain.mk none 7 ((r"example.com.").toList))
      (Root.mk none 7 ((r"example.com.").toList))).1 (by decide),
    (c2_len_eq_input_length knownSuffixes ((r"example.com.").toList)
      (Domain.mk none 7 ((r"example.com.").toList))
      (Root.mk none 7 ((r"example.com.").toList))).2 (by decide)⟩

/-- C4: when the layout succeeds and the initializer fails with e, try_new_dst
returns exactly Init(e); the allocator trace is empty on the zero-size path and an
alloc immediately matched by a dealloc otherwise, so allocator calls balance and no
allocation remains outstanding. -/
theorem c4_try_new_dst_init_error {E V : Type} (layoutFn : Nat → Except LayoutError Layout)
    (len : Nat) (lay : Layout) (init : Nat → Except E V) (e : E)
    (hlay : layoutFn len = .ok lay) (hinit : init len = .error e) :
    tryNewDst layoutFn len init =
      (.error (TryAllocDstError.Init e),
        if lay.size = 0 then [] else
          [AllocEvent.alloc lay, AllocEvent.dealloc lay]) ∧
    allocCount (tryNewDst layoutFn len init).2 =
      deallocCount (tryNewDst layoutFn len init).2 := by
  have hr : tryNewDst layoutFn len init =
      (.error (TryAllocDstError.Init e),
        if lay.size = 0 then [] else
          [AllocEvent.alloc lay, AllocEvent.dealloc lay]) := by
    unfold tryNewDst
    simp only [hlay, hinit]
    by_cases hz : lay.size = 0
    · simp only [if_pos hz]
    · simp only [if_neg hz]
  refine ⟨hr, ?_⟩
  rw [hr]
  by_cases hz : lay.size = 0
  · rw [if_pos hz]
    rfl
  · rw [if_neg hz]
    rfl

/-- C4 witness: the str shape at length 3 with a failing initializer. -/
theorem c4_witness :
    tryNewDst strLayout 3 (fun _ => (.error InitFailure.boom : Except InitFailure Unit)) =
      (.error (TryAllocDstError.Init InitFailure.boom),
        if (Layout.mk 3 1).size = 0 then [] else
          [AllocEvent.alloc (Layout.mk 3 1), AllocEvent.dealloc (Layout.mk 3 1)]) ∧
    allocCount (tryNewDst strLayout 3
        (fun _ => (.error InitFailure.boom : Except InitFailure Unit))).2 =
      deallocCount (tryNewDst strLayout 3
        (fun _ => (.error InitFailure.boom : Except InitFailure Unit))).2 :=
  c4_try_new_dst_init_error strLayout 3 (Layout.mk 3 1)
    (fun _ => (.error InitFailure.boom : Except InitFailure Unit)) InitFailure.boom
    (by decide) rfl

/-- C5: Domain::parse("www.example.com") succeeds with prefix "www", root-as-str
"example.com" and suffix "com"; Domain::parse("example.com") succeeds with no
prefix, root-as-str "example.com" and suffix "com". -/
theorem c5_parse_examples :
    (Domain.parse knownSuffixes ((r"www.example.com").toList)).map Domain.pfx =
      .ok (some ((r"www").toList)) ∧
    (Domain.parse knownSuffixes ((r"www.example.com").toList)).map
      (fun d => d.root.as_str) = .ok ((r"example.com").toList) ∧
    (Domain.parse knownSuffixes ((r"www.example.com").toList)).map Domain.suffix =
      .ok ((r"com").toList) ∧
    (Domain.parse knownSuffixes ((r"example.com").toList)).map Domain.pfx =
      .ok none ∧
    (Domain.parse knownSuffixes ((r"example.com").toList)).map
      (fun d => d.root.as_str) = .ok ((r"example.com").toList) ∧
    (Domain.parse knownSuffixes ((r"example.com").toList)).map Domain.suffix =
      .ok ((r"com").toList) := by
  decide

/-- C6: whenever parse_domain finds a root-separator index, Root::parse fails with
the has-prefix error carrying the text before that index. -/
theorem c6_root_rejects_prefixed (known : List Str) (input : Str) (rsi ssi : Nat)
    (h : parse_domain known input = .ok (some rsi, ssi)) :
    Root.parse known input =
      .error (DomainCreateError.Parse
        (DomainParseError.HasPfx input (input.take rsi))) := by
  unfold Root.parse
  rw [h]

/-- C6 witness: Root::parse("www.example.com") fails carrying prefix "www". -/
theorem c6_witness :
    Root.parse knownSuffixes ((r"www.example.com").toList) =
      .error (DomainCreateError.Parse (DomainParseError.HasPfx
        ((r"www.example.com").toList) (((r"www.example.com").toList).take 3))) ∧
    ((r"www.example.com").toList).take 3 = (r"www").toList :=
  ⟨c6_root_rejects_prefixed knownSuffixes ((r"www.example.com").toList) 3 11 (by decide),
    by decide⟩

/-- C9 counterexample: a slice of zero-size elements (Rust unit type) at requested
length 5 has a zero-size layout; construction succeeds without touching the
allocator, yet the resulting value's length is 5, not 0 as the claim states. -/
theorem c9_counterexample :
    arrayLayout 0 1 5 = .ok (Layout.mk 0 1) ∧
    tryNewDst (arrayLayout 0 1) 5 (fun _ => (.ok () : Except InitFailure Unit)) =
      (.ok (BuiltDst.mk 5 ()), []) ∧ (5 : Nat) ≠ 0 := by
  decide

/-- C9 amended: for every shape and length whose layout has size zero, a
construction whose initializer succeeds returns the value without calling the
allocator (a dangling aligned pointer stands in), and the value's length is the
requested length; it is 0 exactly in the zero-length-tail case such as str. -/
theorem c9_zero_size {E V : Type} (layoutFn : Nat → Except LayoutError Layout)
    (len : Nat) (lay : Layout) (init : Nat → Except E V) (v : V)
    (hlay : layoutFn len = .ok lay) (hz : lay.size = 0) (hinit : init len = .ok v) :
    tryNewDst layoutFn len init = (.ok (BuiltDst.mk len v), []) := by
  unfold tryNewDst
  simp only [hlay, hinit, if_pos hz]

/-- C9 witness: the str shape at length 0 built without an allocator call. -/
theorem c9_witness :
    tryNewDst strLayout 0 (fun _ => (.ok () : Except InitFailure Unit)) =
      (.ok (BuiltDst.mk 0 ()), []) :=
  c9_zero_size strLayout 0 (Layout.mk 0 1)
    (fun _ => (.ok () : Except InitFailure Unit)) () (by decide) rfl rfl

/-- C1 counterexample: "com" is a non-empty ASCII string with no empty label, no
over-length label, and a recognized public suffix, yet Domain::parse fails with
MissingRoot, so the claim's stated validity conditions do not suffice for the
parse to succeed. -/
theorem c1_counterexample :
    (r"com").toList ≠ [] ∧
    (∀ l ∈ splitOnDot ((r"com").toList), l ≠ [] ∧ l.length ≤ MAX_LABEL_LEN) ∧
    pslSuffix knownSuffixes ((r"com").toList) = some ((r"com").toList, true) ∧
    Domain.parse knownSuffixes ((r"com").toList) =
      .error (DomainCreateError.Parse
        (DomainParseError.MissingRoot ((r"com").toList))) := by
  decide

/-- C1 amended: for every string s whose working form (s minus one trailing dot)
is non-empty, at most MAX_DOMAIN_LEN long, has only non-empty labels of at most
MAX_LABEL_LEN characters, and has a recognized public suffix strictly shorter
than the working form, Domain::parse(s) succeeds, as_str() of the result equals s
exactly, and as_str() after not_fqdn() equals s with at most one trailing dot
removed. -/
theorem c1_roundtrip (known : List Str) (s sfx : Str)
    (h1 : getNotFqdn s ≠ [])
    (h2 : (getNotFqdn s).length ≤ MAX_DOMAIN_LEN)
    (h3 : ∀ l ∈ splitOnDot (getNotFqdn s), l ≠ [] ∧ l.length ≤ MAX_LABEL_LEN)
    (h4 : pslSuffix known (getNotFqdn s) = some (sfx, true))
    (h5 : (getNotFqdn s).length ≠ sfx.length) :
    ∃ d, Domain.parse known s = .ok d ∧ d.as_str = s ∧
      d.not_fqdn.as_str = getNotFqdn s := by
  have hck := checkLabels_eq_none (d := s) h3
  have hp := parse_domain_eq_ok h1 h2 hck h4 h5
  have hlen : s.length ≤ 300 := by
    have hle := length_le_getNotFqdn_add_one s
    unfold MAX_DOMAIN_LEN at h2
    omega
  obtain ⟨lay, hlay⟩ := domainLayout_ok hlen
  refine ⟨Domain.mk
    (rfindDot ((getNotFqdn s).take ((getNotFqdn s).length - sfx.length - 1)))
    ((getNotFqdn s).length - sfx.length - 1) s, ?_, rfl, ?_⟩
  · unfold Domain.parse
    rw [hp]
    show Domain.new_unchecked
      (rfindDot ((getNotFqdn s).take ((getNotFqdn s).length - sfx.length - 1)))
      ((getNotFqdn s).length - sfx.length - 1) s = _
    unfold Domain.new_unchecked
    simp only [hlay]
  · by_cases hfq : s.getLast? = some '.'
    · simp [Domain.not_fqdn, Domain.is_fqdn, Domain.as_str, getNotFqdn, hfq]
    · simp [Domain.not_fqdn, Domain.is_fqdn, Domain.as_str, getNotFqdn, hfq]

/-- C1 witness: the amended statement evaluated on "example.com.". -/
theorem c1_witness :
    ∃ d, Domain.parse knownSuffixes ((r"example.com.").toList) = .ok d ∧
      d.as_str = (r"example.com.").toList ∧
      d.not_fqdn.as_str = getNotFqdn ((r"example.com.").toList) :=
  c1_roundtrip knownSuffixes ((r"example.com.").toList) ((r"com").toList)
    (by decide) (by decide) (by decide) (by decide) (by decide)

/-- C3 counterexample: for the fully-qualified input "example.invalid." the code
fails with UnknownSuffix carrying "invalid", the text found by looking up the
dot-trimmed working string, whereas a lookup on the unmodified input (which the
claim says determines the suffix) matches "invalid." with the trailing dot. -/
theorem c3_counterexample :
    Domain.parse knownSuffixes ((r"example.invalid.").toList) =
      .error (DomainCreateError.Parse (DomainParseError.UnknownSuffix
        ((r"example.invalid.").toList) ((r"invalid").toList))) ∧
    pslSuffix knownSuffixes ((r"example.invalid.").toList) =
      some ((r"invalid.").toList, false) ∧
    (r"invalid").toList ≠ (r"invalid.").toList := by
  decide

/-- C3 amended: the suffix lookup is performed on the dot-trimmed working string;
when it finds nothing the parse fails with MissingSuffix, when the match is not a
known suffix the parse fails with UnknownSuffix carrying that matched text, and on
success suffix_separator_idx is the offset of the dot immediately preceding the
matched suffix within the working string. -/
theorem c3_lookup_on_working_string (known : List Str) (s : Str)
    (h1 : getNotFqdn s ≠ []) (h2 : (getNotFqdn s).length ≤ MAX_DOMAIN_LEN)
    (h3 : checkLabels s (splitOnDot (getNotFqdn s)) = none) :
    (pslSuffix known (getNotFqdn s) = none →
      Domain.parse known s =
        .error (DomainCreateError.Parse (DomainParseError.MissingSuffix s))) ∧
    (∀ sfx, pslSuffix known (getNotFqdn s) = some (sfx, false) →
      Domain.parse known s =
        .error (DomainCreateError.Parse (DomainParseError.UnknownSuffix s sfx))) ∧
    (∀ d, Domain.parse known s = .ok d →
      ∃ sfx, pslSuffix known (getNotFqdn s) = some (sfx, true) ∧
        (getNotFqdn s).getD d.suffix_separator_idx ' ' = '.' ∧
        (getNotFqdn s).drop (d.suffix_separator_idx + 1) = sfx) := by
  refine ⟨?_, ?_, ?_⟩
  · intro h4
    unfold Domain.parse parse_domain
    rw [if_neg h1, if_neg (Nat.not_lt.mpr h2)]
    simp [h3, h4]
  · intro sfx h4
    unfold Domain.parse parse_domain
    rw [if_neg h1, if_neg (Nat.not_lt.mpr h2)]
    simp [h3, h4]
  · intro d hd
    obtain ⟨hpd, hdom⟩ := domain_parse_ok hd
    obtain ⟨sfx, pre, hcore, hsplit, hssi⟩ := parse_domain_suffix_decomp hpd
    have hnd : (getNotFqdn s).getLast? ≠ some '.' :=
      checkLabels_none_no_dot (parse_domain_ok hpd).2.2.1
    refine ⟨sfx, ?_, ?_, ?_⟩
    · rw [pslSuffix_eq_core hnd, hcore]
    · rw [hssi, hsplit]
      exact getD_pre_dot pre sfx
    · rw [hssi, hsplit]
      exact drop_pre_dot pre sfx

/-- C3 witness: the amended unknown-suffix case evaluated on "example.invalid". -/
theorem c3_witness :
    Domain.parse knownSuffixes ((r"example.invalid").toList) =
      .error (DomainCreateError.Parse (DomainParseError.UnknownSuffix
        ((r"example.invalid").toList) ((r"invalid").toList))) :=
  (c3_lookup_on_working_string knownSuffixes ((r"example.invalid").toList)
    (by decide) (by decide) (by decide)).2.1 ((r"invalid").toList) (by decide)

/-- C7: parsing rejects with the matching taxonomy error: an empty working string
gives Empty; a working string over MAX_DOMAIN_LEN gives TooLong; with acceptable
length and no empty labels, an over-length label gives TooLongLabel carrying such
a label; a working string equal to its known suffix gives MissingRoot; concretely,
parse of the empty string is Empty, parse of "com" is MissingRoot, and parse of 64
letters a followed by ".com" is TooLongLabel carrying the 64-letter label. -/
theorem c7_error_taxonomy (known : List Str) :
    (∀ s, getNotFqdn s = [] →
      Domain.parse known s =
        .error (DomainCreateError.Parse DomainParseError.Empty)) ∧
    (∀ s, MAX_DOMAIN_LEN < (getNotFqdn s).length →
      Domain.parse known s =
        .error (DomainCreateError.Parse (DomainParseError.TooLong s))) ∧
    (∀ s, getNotFqdn s ≠ [] → (getNotFqdn s).length ≤ MAX_DOMAIN_LEN →
      (∀ l ∈ splitOnDot (getNotFqdn s), l ≠ []) →
      (∃ l ∈ splitOnDot (getNotFqdn s), MAX_LABEL_LEN < l.length) →
      ∃ l ∈ splitOnDot (getNotFqdn s), MAX_LABEL_LEN < l.length ∧
        Domain.parse known s =
          .error (DomainCreateError.Parse (DomainParseError.TooLongLabel s l))) ∧
    (∀ s sfx, getNotFqdn s ≠ [] → (getNotFqdn s).length ≤ MAX_DOMAIN_LEN →
      checkLabels s (splitOnDot (getNotFqdn s)) = none →
      pslSuffix known (getNotFqdn s) = some (sfx, true) →
      getNotFqdn s = sfx →
      Domain.parse known s =
        .error (DomainCreateError.Parse (DomainParseError.MissingRoot s))) ∧
    Domain.parse knownSuffixes [] =
      .error (DomainCreateError.Parse DomainParseError.Empty) ∧
    Domain.parse knownSuffixes ((r"com").toList) =
      .error (DomainCreateError.Parse
        (DomainParseError.MissingRoot ((r"com").toList))) ∧
    Domain.parse knownSuffixes (List.replicate 64 'a' ++ (r".com").toList) =
      .error (DomainCreateError.Parse (DomainParseError.TooLongLabel
        (List.replicate 64 'a' ++ (r".com").toList) (List.replicate 64 'a'))) := by
  refine ⟨?_, ?_, ?_, ?_, by decide, by decide, by decide⟩
  · intro s h
    unfold Domain.parse parse_domain
    rw [if_pos h]
  · intro s h
    have h0 : getNotFqdn s ≠ [] := by
      intro he
      rw [he] at h
      simp [MAX_DOMAIN_LEN] at h
    unfold Domain.parse parse_domain
    rw [if_neg h0, if_pos h]
  · intro s h1 h2 hne hex
    obtain ⟨l, hl, hlen, hck⟩ := checkLabels_toolong (d := s) hne hex
    refine ⟨l, hl, hlen, ?_⟩
    unfold Domain.parse parse_domain
    rw [if_neg h1, if_neg (Nat.not_lt.mpr h2)]
    simp [hck]
  · intro s sfx h1 h2 h3 h4 h5
    unfold Domain.parse parse_domain
    rw [if_neg h1, if_neg (Nat.not_lt.mpr h2)]
    have hlen : (getNotFqdn s).length = sfx.length := congrArg List.length h5
    simp [h3, h4, hlen]

/-- C7 witness: the too-long case of the taxonomy at 300 letters a. -/
theorem c7_witness :
    Domain.parse knownSuffixes (List.replicate 300 'a') =
      .error (DomainCreateError.Parse
        (DomainParseError.TooLong (List.replicate 300 'a'))) :=
  (c7_error_taxonomy knownSuffixes).2.1 (List.replicate 300 'a') (by decide)

/-- C8: not_fqdn is idempotent on every successfully parsed Domain and Root: the
second application returns the same view unchanged. -/
theorem c8_not_fqdn_idempotent (known : List Str) (s : Str) (d : Domain) (rt : Root) :
    (Domain.parse known s = .ok d → d.not_fqdn.not_fqdn = d.not_fqdn) ∧
    (Root.parse known s = .ok rt → rt.not_fqdn.not_fqdn = rt.not_fqdn) := by
  constructor
  · intro h
    obtain ⟨hpd, hdom⟩ := domain_parse_ok h
    have hnd : (getNotFqdn s).getLast? ≠ some '.' :=
      checkLabels_none_no_dot (parse_domain_ok hpd).2.2.1
    by_cases hfq : s.getLast? = some '.'
    · have hdl : getNotFqdn s = s.dropLast := by
        unfold getNotFqdn
        rw [if_pos hfq]
      rw [hdl] at hnd
      have hfst : d.not_fqdn =
          Domain.mk d.root_separator_idx d.suffix_separator_idx s.dropLast := by
        unfold Domain.not_fqdn Domain.is_fqdn Domain.as_str
        rw [hdom]
        simp [hfq]
      have hsnd : (Domain.mk d.root_separator_idx d.suffix_separator_idx
          s.dropLast).not_fqdn =
          Domain.mk d.root_separator_idx d.suffix_separator_idx s.dropLast := by
        simp [Domain.not_fqdn, Domain.is_fqdn, Domain.as_str, hnd]
      rw [hfst, hsnd]
    · have hfst : d.not_fqdn = d := by
        unfold Domain.not_fqdn Domain.is_fqdn Domain.as_str
        rw [hdom]
        simp [hfq]
      rw [hfst]
      exact hfst
  · intro h
    obtain ⟨hpd, hrn, hdom⟩ := root_parse_ok h
    have hnd : (getNotFqdn s).getLast? ≠ some '.' :=
      checkLabels_none_no_dot (parse_domain_ok hpd).2.2.1
    by_cases hfq : s.getLast? = some '.'
    · have hdl : getNotFqdn s = s.dropLast := by
        unfold getNotFqdn
        rw [if_pos hfq]
      rw [hdl] at hnd
      have hfst : rt.not_fqdn =
          Root.mk rt.root_separator_idx rt.suffix_separator_idx s.dropLast := by
        unfold Root.not_fqdn Root.is_fqdn Root.as_str
        rw [hdom, hrn]
        simp [hfq]
      have hsnd : (Root.mk rt.root_separator_idx rt.suffix_separator_idx
          s.dropLast).not_fqdn =
          Root.mk rt.root_separator_idx rt.suffix_separator_idx s.dropLast := by
        rw [hrn]
        simp [Root.not_fqdn, Root.is_fqdn, Root.as_str, hnd]
      rw [hfst, hsnd]
    · have hfst : rt.not_fqdn = rt := by
        unfold Root.not_fqdn Root.is_fqdn Root.as_str
        rw [hdom, hrn]
        simp [hfq]
      rw [hfst]
      exact hfst

/-- C8 witness: not_fqdn applied twice on the parses of "example.com.". -/
theorem c8_witness :
    (Domain.mk none 7 ((r"example.com.").toList)).not_fqdn.not_fqdn =
      (Domain.mk none 7 ((r"example.com.").toList)).not_fqdn ∧
    (Root.mk none 7 ((r"example.com.").toList)).not_fqdn.not_fqdn =
      (Root.mk none 7 ((r"example.com.").toList)).not_fqdn :=
  ⟨(c8_not_fqdn_idempotent knownSuffixes ((r"example.com.").toList)
      (Domain.mk none 7 ((r"example.com.").toList))
      (Root.mk none 7 ((r"example.com.").toList))).1 (by decide),
    (c8_not_fqdn_idempotent knownSuffixes ((r"example.com.").toList)
      (Domain.mk none 7 ((r"example.com.").toList))
      (Root.mk none 7 ((r"example.com.").toList))).2 (by decide)⟩

/-- C10: for every fully-qualified input accepted by Domain::parse or Root::parse
the suffix accessor returns the looked-up suffix with the trailing dot included,
because the separator index was computed on the dot-trimmed working string while
the stored tail is the full input; after not_fqdn() the suffix loses the dot. -/
theorem c10_fqdn_suffix (known : List Str) (s : Str) (d : Domain) (rt : Root)
    (hfq : s.getLast? = some '.') :
    (Domain.parse known s = .ok d →
      ∃ sfx, pslSuffixCore known (getNotFqdn s) = some (sfx, true) ∧
        d.suffix = sfx ++ ['.'] ∧ d.not_fqdn.suffix = sfx) ∧
    (Root.parse known s = .ok rt →
      ∃ sfx, pslSuffixCore known (getNotFqdn s) = some (sfx, true) ∧
        rt.suffix = sfx ++ ['.'] ∧ rt.not_fqdn.suffix = sfx) := by
  have hs : s = getNotFqdn s ++ ['.'] := fqdn_decomp hfq
  have hdl : s.dropLast = getNotFqdn s := by
    conv_lhs => rw [hs]
    rw [List.dropLast_concat]
  constructor
  · intro h
    obtain ⟨hpd, hdom⟩ := domain_parse_ok h
    obtain ⟨sfx, pre, hcore, hsplit, hssi⟩ := parse_domain_suffix_decomp hpd
    refine ⟨sfx, hcore, ?_, ?_⟩
    · unfold Domain.suffix
      rw [hdom, hssi, hs, hsplit]
      have hassoc : (pre ++ '.' :: sfx) ++ ['.'] = pre ++ '.' :: (sfx ++ ['.']) := by
        simp
      rw [hassoc]
      exact drop_pre_dot pre (sfx ++ ['.'])
    · have hfst : d.not_fqdn =
          Domain.mk d.root_separator_idx d.suffix_separator_idx s.dropLast := by
        unfold Domain.not_fqdn Domain.is_fqdn Domain.as_str
        rw [hdom]
        simp [hfq]
      rw [hfst]
      show s.dropLast.drop (d.suffix_separator_idx + 1) = sfx
      rw [hssi, hdl, hsplit]
      exact drop_pre_dot pre sfx
  · intro h
    obtain ⟨hpd, hrn, hdom⟩ := root_parse_ok h
    obtain ⟨sfx, pre, hcore, hsplit, hssi⟩ := parse_domain_suffix_decomp hpd
    refine ⟨sfx, hcore, ?_, ?_⟩
    · unfold Root.suffix
      rw [hdom, hssi, hs, hsplit]
      have hassoc : (pre ++ '.' :: sfx) ++ ['.'] = pre ++ '.' :: (sfx ++ ['.']) := by
        simp
      rw [hassoc]
      exact drop_pre_dot pre (sfx ++ ['.'])
    · have hfst : rt.not_fqdn =
          Root.mk rt.root_separator_idx rt.suffix_separator_idx s.dropLast := by
        unfold Root.not_fqdn Root.is_fqdn Root.as_str
        rw [hdom, hrn]
        simp [hfq]
      rw [hfst]
      show s.dropLast.drop (rt.suffix_separator_idx + 1) = sfx
      rw [hssi, hdl, hsplit]
      exact drop_pre_dot pre sfx

/-- C10 witness: the fully-qualified "example.com." keeps the dot in suffix() and
loses it after not_fqdn(). -/
theorem c10_witness :
    ∃ sfx, pslSuffixCore knownSuffixes (getNotFqdn ((r"example.com.").toList)) =
        some (sfx, true) ∧
      (Domain.mk none 7 ((r"example.com.").toList)).suffix = sfx ++ ['.'] ∧
      (Domain.mk none 7 ((r"example.com.").toList)).not_fqdn.suffix = sfx :=
  (c10_fqdn_suffix knownSuffixes ((r"example.com.").toList)
    (Domain.mk none 7 ((r"example.com.").toList))
    (Root.mk none 7 ((r"example.com.").toList)) (by decide)).1 (by decide)

end Hamsando
